import Mathlib

/-!
Verification of the SoX `synth` effect (src/jni/sox/src/synth.c).

The definitions below are a shallow embedding of the signal-generation
engine: parameter default-resolution (`set_default_parameters`), the
configuration checks of `getopts`, the sweep multipliers computed in
`start`, the per-sample phase computations of `flow`, the pink-noise row
sizing, the brown-noise rejection-sampling step, the pluck excitation
buffer normalization, and the DC-offset clip guard.  Exact rational or
real arithmetic stands in for C `double` arithmetic; machine integers
that matter (row counts, sample counts) are natural numbers.
-/

set_option maxHeartbeats 1000000

namespace SoxSynth

/-! ## C helpers from outside src/ -/

/-- Modelled from the spec: the `sign` helper used by `flow` comes from the
repository header `sox_i.h`, which is not under src/.  In C it maps negative
arguments to -1 and everything else to 1; in every formula of the spec it is
only ever multiplied with a quantity that vanishes when its argument is 0,
so the convention at 0 is immaterial. -/
noncomputable def csign (x : ℝ) : ℝ := if x < 0 then -1 else 1

/-- The `sqr` helper from the repository header `sox_i.h`: `sqr(x) = x*x`. -/
def sqr (x : ℝ) : ℝ := x * x

/-- Modelled from the spec: C's `fmod(x, 1.0)` (libc, not under src/):
`x - trunc(x)`, where truncation rounds toward zero, so the result keeps
the sign of `x`. -/
noncomputable def cfmod1 (x : ℝ) : ℝ := x - ((if x < 0 then ⌈x⌉ else ⌊x⌋ : ℤ) : ℝ)

/-! ## Default-resolution of shape parameters (`set_default_parameters`) -/

/-- `set_default_parameters`, `case synth_trapezium` (synth.c:221-241):
resolves the three shape parameters, each either unset (-1) or a value in
[0,1].  Returned as (p1, p2, p3). -/
def trapeziumDefaults (p1 p2 p3 : ℚ) : ℚ × ℚ × ℚ :=
  if p1 < 0 then (1/10, 1/2, 3/5)
  else if p2 < 0 then
    (if p1 ≤ 1/2 then (p1, (1 - 2 * p1) / 2, (1 - 2 * p1) / 2 + p1)
     else (p1, p1, 1))
  else if p3 < 0 then (p1, p2, 1)
  else (p1, p2, p3)

/-- `set_default_parameters`, `case synth_pluck` (synth.c:255-261):
`p1` defaults to 0.4; when `p2` is unset, the comma expression
`chan->p2 = .2, chan->p3 = .9` assigns both `p2` and `p3`. -/
def pluckDefaults (p1 p2 p3 : ℚ) : ℚ × ℚ × ℚ :=
  (if p1 < 0 then 2/5 else p1,
   if p2 < 0 then 1/5 else p2,
   if p2 < 0 then 9/10 else p3)

/-! ## Pink noise row sizing -/

/-- `PINK_MAX_RANDOM_ROWS` (synth.c:87): the size of the `pink_Rows` array. -/
def pinkMaxRows : ℕ := 30

/-- Number of rows requested for the pink-noise generator of audio channel
`c`: `InitializePinkNoise(&chan->pink_noise, 10 + 2 * c)` (synth.c:245). -/
def pinkNumRows (c : ℕ) : ℕ := 10 + 2 * c

/-! ## Configuration checks in `getopts` -/

/-- The synth types, in the order of the C enum (synth.c:35-50);
tones first, noises from `whitenoise` on. -/
inductive SynthType where
  | sine | square | sawtooth | triangle | trapezium | expPulse
  | whitenoise | tpdfnoise | pinknoise | brownnoise | pluck
  deriving DecidableEq

/-- Numeric value of each `type_t` enumerator. -/
def typeCode : SynthType → ℕ
  | .sine => 0
  | .square => 1
  | .sawtooth => 2
  | .triangle => 3
  | .trapezium => 4
  | .expPulse => 5
  | .whitenoise => 6
  | .tpdfnoise => 7
  | .pinknoise => 8
  | .brownnoise => 9
  | .pluck => 10

/-- `synth_noise` is an alias for `synth_whitenoise` (enum value 6); the
test `chan->type >= synth_noise` (synth.c:357) identifies noise and pluck
types. -/
def synthNoiseCode : ℕ := 6

/-- The sweep laws, in the order of `sweep_t` (synth.c:162), which is the
index of the separator in the `sweeps` string (colon, plus, slash, minus). -/
inductive SweepKind where
  | linear | square | expLaw | expCycle
  deriving DecidableEq

/-- Numeric value of each `sweep_t` enumerator. -/
def sweepCode : SweepKind → ℕ
  | .linear => 0
  | .square => 1
  | .expLaw => 2
  | .expCycle => 3

/-- The numeric value of the `Exp` enumerator; `chan->sweep >= Exp`
(synth.c:376) identifies the two exponential sweep laws. -/
def expLawCode : ℕ := 2

/-- The distinct failure exits of the frequency-parsing block of `getopts`. -/
inductive FailKind where
  | invalidFreq | cantSweepType | invalidFreq2 | durationRequired | expSweepZeroFreq
  deriving DecidableEq

/-- The sweep-related checks of `getopts` (synth.c:356-379): run only when a
sweep separator was present (`sw = some (law, freq2)`); with no separator
`chan->sweep` keeps its zeroed default `Linear` and `freq2 = freq`, so the
final `sweep >= Exp` test can never fire. -/
def getoptsSweepCheck (t : SynthType) (freq : ℚ) (hasLength : Bool) :
    Option (SweepKind × ℚ) → Except FailKind Unit
  | some (s, f2) =>
      if synthNoiseCode ≤ typeCode t then .error .cantSweepType
      else if f2 < 0 then .error .invalidFreq2
      else if hasLength = false then .error .durationRequired
      else if expLawCode ≤ sweepCode s ∧ freq * f2 = 0 then .error .expSweepZeroFreq
      else .ok ()
  | none => .ok ()

/-- The frequency/sweep validation block of `getopts` (synth.c:346-379),
after lexical parsing: `freq` is the parsed base frequency, `sw` is
`some (law, freq2)` when a sweep separator was present and `none` otherwise,
and `hasLength` records whether a duration argument was supplied.  Checks
appear in source order. -/
def getoptsFreqCheck (t : SynthType) (freq : ℚ) (sw : Option (SweepKind × ℚ))
    (hasLength : Bool) : Except FailKind Unit :=
  if freq < (if t = .pluck then 55/2 else 0) ∨ (t = .pluck ∧ freq > 4220) then
    .error .invalidFreq
  else getoptsSweepCheck t freq hasLength sw

/-- Whether a configuration-check result is a rejection (`SOX_EOF`). -/
def isRejected : Except FailKind Unit → Bool
  | .error _ => true
  | .ok _ => false

/-! ## Brown noise (`flow`, `case synth_brownnoise`, synth.c:667-671) -/

/-- One call of the brown-noise rejection loop
`do synth_out = chan->lp_last_out + DRANQD1 * (1. / 16); while (fabs(synth_out) > 1)`:
from accumulator `acc`, try the white draws in order and return the first
candidate `acc + d/16` whose magnitude is at most 1 (`none` if the supplied
draw list is exhausted). -/
def brownStep (acc : ℚ) : List ℚ → Option ℚ
  | [] => none
  | d :: ds =>
      if |acc + d * (1/16)| ≤ 1 then some (acc + d * (1/16)) else brownStep acc ds

/-- A run of brown-noise calls: each call consumes one list of candidate
white draws and, on acceptance, the accepted value becomes the sample and
the new accumulator (`chan->lp_last_out = synth_out`).  The channel is
created zeroed, so the initial accumulator is 0. -/
def brownRun (acc : ℚ) : List (List ℚ) → List ℚ
  | [] => []
  | ds :: rest =>
      match brownStep acc ds with
      | none => []
      | some out => out :: brownRun out rest

/-! ## Sweep multipliers (`start`, synth.c:499-515) -/

/-- The square-law multiplier before the sign fix-up (synth.c:503-504):
`samples_to_do ? sqrt(fabs(freq2 - freq)) / samples_to_do / sqrt(3.) : 0`. -/
noncomputable def squareSweepMultBase (f f2 : ℝ) (N : ℕ) : ℝ :=
  if N = 0 then 0 else Real.sqrt |f2 - f| / N / Real.sqrt 3

/-- The square-law sweep multiplier (synth.c:503-507): the base value,
negated when `freq > freq2`. -/
noncomputable def squareSweepMult (f f2 : ℝ) (N : ℕ) : ℝ :=
  if f2 < f then -squareSweepMultBase f f2 N else squareSweepMultBase f f2 N

/-- The square-law multiplier as the claim words it:
`sign(f2 - f) * sqrt(|f2 - f| / N / 3)`, 0 when N = 0.  Stated only to be
compared against `squareSweepMult`, the multiplier the code computes. -/
noncomputable def squareSweepMultSpec (f f2 : ℝ) (N : ℕ) : ℝ :=
  if N = 0 then 0 else Real.sign (f2 - f) * Real.sqrt (|f2 - f| / N / 3)

/-- The raw (pre-`fmod`) square-law phase at elapsed samples `n` and elapsed
time `t` (synth.c:551-553):
`(freq + sign(mult) * sqr(samples_done * mult)) * elapsed_time_s`. -/
noncomputable def squarePhaseRaw (f m : ℝ) (n : ℕ) (t : ℝ) : ℝ :=
  (f + csign m * sqr (n * m)) * t

/-- The exponential sweep multiplier (synth.c:508-509):
`samples_to_do ? log(freq2 / freq) / samples_to_do * rate : 1`. -/
noncomputable def expSweepMult (f f2 rate : ℝ) (N : ℕ) : ℝ :=
  if N = 0 then 1 else Real.log (f2 / f) / N * rate

/-- At setup the exponential law replaces `freq` by `freq / mult`
(synth.c:510). -/
noncomputable def expStartFreq (f f2 rate : ℝ) (N : ℕ) : ℝ :=
  f / expSweepMult f f2 rate N

/-- The raw exponential-law phase at elapsed time `t` (synth.c:555-556):
`freq * exp(mult * elapsed_time_s)`, with `freq` already divided by `mult`. -/
noncomputable def expPhaseRaw (f f2 rate : ℝ) (N : ℕ) (t : ℝ) : ℝ :=
  expStartFreq f f2 rate N * Real.exp (expSweepMult f f2 rate N * t)

/-- The final phase consumed by the waveform switch (synth.c:569):
`phase = fmod(phase + chan->phase, 1.0)`. -/
noncomputable def finalPhase (raw phaseOff : ℝ) : ℝ := cfmod1 (raw + phaseOff)

/-- The exponential-per-cycle multiplier (synth.c:512-513):
`samples_to_do ? (log(freq2) - log(freq)) / samples_to_do : 1`. -/
noncomputable def expCycleMult (f f2 : ℝ) (N : ℕ) : ℝ :=
  if N = 0 then 1 else (Real.log f2 - Real.log f) / N

/-- The exponential-per-cycle instantaneous frequency at elapsed samples `n`
(synth.c:559): `f = freq * exp(samples_done * mult)`. -/
noncomputable def expCycleFreq (f f2 : ℝ) (N n : ℕ) : ℝ :=
  f * Real.exp (n * expCycleMult f f2 N)

/-- One frame of the exponential-per-cycle law (synth.c:560-565): given the
instantaneous frequency `f`, the frame time `t` and the cycle-start time
`cs`, a single `if (f * cycle_elapsed_time_s >= 1)` advances the cycle start
by `1/f`; the result is the phase `f * (t - cycle_start)` paired with the
updated cycle-start time. -/
noncomputable def expCycleStep (f t cs : ℝ) : ℝ × ℝ :=
  if 1 ≤ f * (t - cs) then (f * (t - (cs + 1 / f)), cs + 1 / f)
  else (f * (t - cs), cs)

/-! ## DC offset (`flow`, synth.c:695-696) -/

/-- The offset step with clip guard:
`synth_out = synth_out * (1 - fabs(chan->offset)) + chan->offset`. -/
noncomputable def offsetClip (s o : ℝ) : ℝ := s * (1 - |o|) + o

/-! ## Pluck excitation normalization (`start`, synth.c:475-493) -/

/-- The `min` accumulated over the graduated excitation buffer, seeded with
0 by `for (j = 0, min = max = 0; ...)` (synth.c:475). -/
noncomputable def bufferMin (b : List ℝ) : ℝ := b.foldl min 0

/-- The `max` accumulated over the graduated excitation buffer, seeded with
0 (synth.c:475). -/
noncomputable def bufferMax (b : List ℝ) : ℝ := b.foldl max 0

/-- The normalization pass (synth.c:490-491):
`buffer[j] = (2 * buffer[j] - max - min) / (max - min)`. -/
noncomputable def normalizeBuffer (b : List ℝ) : List ℝ :=
  b.map fun v => (2 * v - bufferMax b - bufferMin b) / (bufferMax b - bufferMin b)

end SoxSynth

namespace SoxSynth

/-! ## Theorems: ℚ-valued claims -/

/-- C10: for every pluck channel, an unset (-1) `p2` makes default-resolution
assign both `p2 = 0.2` and `p3 = 0.9`, overwriting any user-supplied `p3`;
a supplied (non-negative) `p2` leaves `p3` untouched, so a user `p3` only
takes effect when `p2` was also supplied. -/
theorem pluck_p2_unset_forces_p3 (p1 p2 p3 : ℚ) :
    ((pluckDefaults p1 (-1) p3).2.1 = 1/5 ∧ (pluckDefaults p1 (-1) p3).2.2 = 9/10)
    ∧ (0 ≤ p2 → (pluckDefaults p1 p2 p3).2.2 = p3) := by
  refine ⟨⟨?_, ?_⟩, ?_⟩
  · simp [pluckDefaults]
  · simp [pluckDefaults]
  · intro h
    simp [pluckDefaults, not_lt.mpr h]

/-- C10 witness: concrete instance with `p2` supplied and `p3 = 0.3`. -/
theorem pluck_p2_unset_forces_p3_witness :
    ((pluckDefaults (2/5) (-1) (3/10)).2.1 = 1/5 ∧ (pluckDefaults (2/5) (-1) (3/10)).2.2 = 9/10)
    ∧ (0 ≤ (1/2 : ℚ) → (pluckDefaults (2/5) (1/2) (3/10)).2.2 = 3/10) :=
  ⟨(pluck_p2_unset_forces_p3 (2/5) (1/2) (3/10)).1,
   (pluck_p2_unset_forces_p3 (2/5) (1/2) (3/10)).2⟩

/-- C4: the claim says the pink-noise row count 10 + 2·c is capped at the
structural maximum of 30; the code applies no cap, and channel index 11
already requests 32 rows, past the end of the 30-entry `pink_Rows` array
that `InitializePinkNoise` then writes. -/
theorem pink_rows_exceed_structural_max :
    pinkNumRows 11 = 32 ∧ pinkMaxRows = 30 ∧ pinkMaxRows < pinkNumRows 11 := by
  refine ⟨rfl, rfl, ?_⟩
  decide

/-- C2 counterexample: with only `p1 = 0.4` given (`p2 = p3 = -1`), the
symmetric derivation produces `(0.4, 0.1, 0.5)`, and `p1 ≤ p2` fails, so the
claimed ordering `0 ≤ p1 ≤ p2 ≤ p3 ≤ 1` does not hold. -/
theorem trapezium_ordering_fails_at_p1_04 :
    trapeziumDefaults (2/5) (-1) (-1) = (2/5, 1/10, 1/2)
    ∧ ¬ (trapeziumDefaults (2/5) (-1) (-1)).1 ≤ (trapeziumDefaults (2/5) (-1) (-1)).2.1 := by
  constructor
  · norm_num [trapeziumDefaults]
  · norm_num [trapeziumDefaults]

/-- C2 amended: after default-resolution the ordering 0 ≤ p1 ≤ p2 ≤ p3 ≤ 1
holds provided the supplied parameters are consistent: `p1 ≤ p2` when both
are given, `p2 ≤ p3` when all three are given, and, when only `p1` is given,
`p1 ≤ 1/4` or `p1 > 1/2`.  (The symmetric derivation used for
`p1 ≤ 1/2`, `p2` unset yields `p2 = (1-2·p1)/2 < p1` for `p1 > 1/4`.) -/
theorem trapezium_ordering_of_consistent (p1 p2 p3 : ℚ)
    (h1 : p1 = -1 ∨ (0 ≤ p1 ∧ p1 ≤ 1))
    (h2 : p2 = -1 ∨ (0 ≤ p2 ∧ p2 ≤ 1))
    (h3 : p3 = -1 ∨ (0 ≤ p3 ∧ p3 ≤ 1))
    (h4 : 0 ≤ p1 → p2 = -1 → (p1 ≤ 1/4 ∨ 1/2 < p1))
    (h5 : 0 ≤ p1 → 0 ≤ p2 → p1 ≤ p2)
    (h6 : 0 ≤ p2 → 0 ≤ p3 → p2 ≤ p3) :
    0 ≤ (trapeziumDefaults p1 p2 p3).1
    ∧ (trapeziumDefaults p1 p2 p3).1 ≤ (trapeziumDefaults p1 p2 p3).2.1
    ∧ (trapeziumDefaults p1 p2 p3).2.1 ≤ (trapeziumDefaults p1 p2 p3).2.2
    ∧ (trapeziumDefaults p1 p2 p3).2.2 ≤ 1 := by
  unfold trapeziumDefaults
  split_ifs with hp1 hp2 hhalf hp3
  · norm_num
  · -- p1 ≥ 0, p2 unset, p1 ≤ 1/2: symmetric derivation
    have hp1' : 0 ≤ p1 := not_lt.mp hp1
    have hp2' : p2 = -1 := by
      rcases h2 with h | h
      · exact h
      · exact absurd hp2 (not_lt.mpr h.1)
    rcases h4 hp1' hp2' with hq | hq
    · refine ⟨hp1', ?_, ?_, ?_⟩ <;> simp <;> linarith
    · exact absurd hhalf (not_le.mpr hq)
  · -- p1 ≥ 0, p2 unset, p1 > 1/2: fallback p2 = p1, p3 = 1
    have hp1' : 0 ≤ p1 := not_lt.mp hp1
    have hp1le : p1 ≤ 1 := by
      rcases h1 with h | h
      · exact absurd h (by intro h; rw [h] at hp1; norm_num at hp1)
      · exact h.2
    exact ⟨hp1', le_refl _, hp1le, le_refl _⟩
  · -- p1, p2 given, p3 unset
    have hp1' : 0 ≤ p1 := not_lt.mp hp1
    have hp2' : 0 ≤ p2 := not_lt.mp hp2
    have hp2le : p2 ≤ 1 := by
      rcases h2 with h | h
      · exact absurd h (by intro h; rw [h] at hp2; norm_num at hp2)
      · exact h.2
    exact ⟨hp1', h5 hp1' hp2', hp2le, le_refl _⟩
  · -- all three given
    have hp1' : 0 ≤ p1 := not_lt.mp hp1
    have hp2' : 0 ≤ p2 := not_lt.mp hp2
    have hp3' : 0 ≤ p3 := not_lt.mp hp3
    have hp3le : p3 ≤ 1 := by
      rcases h3 with h | h
      · exact absurd h (by intro h; rw [h] at hp3; norm_num at hp3)
      · exact h.2
    exact ⟨hp1', h5 hp1' hp2', h6 hp2' hp3', hp3le⟩

/-- C2 amended, witness: only `p1 = 0.2 ≤ 1/4` given. -/
theorem trapezium_ordering_of_consistent_witness :
    0 ≤ (trapeziumDefaults (1/5) (-1) (-1)).1
    ∧ (trapeziumDefaults (1/5) (-1) (-1)).1 ≤ (trapeziumDefaults (1/5) (-1) (-1)).2.1
    ∧ (trapeziumDefaults (1/5) (-1) (-1)).2.1 ≤ (trapeziumDefaults (1/5) (-1) (-1)).2.2
    ∧ (trapeziumDefaults (1/5) (-1) (-1)).2.2 ≤ 1 :=
  trapezium_ordering_of_consistent (1/5) (-1) (-1)
    (by norm_num) (by norm_num) (by norm_num)
    (by norm_num) (by norm_num) (by norm_num)

/-- Auxiliary: an accepted brown-noise candidate passed the magnitude guard. -/
theorem brownStep_bounded (acc : ℚ) (ds : List ℚ) (out : ℚ)
    (h : brownStep acc ds = some out) : |out| ≤ 1 := by
  induction ds with
  | nil => simp [brownStep] at h
  | cons d ds ih =>
      rw [brownStep] at h
      split_ifs at h with hg
      · cases h
        exact hg
      · exact ih h

/-- C7: every brown-noise sample ever produced accumulates `out += draw/16`
with the whole step redrawn while the accumulator would leave [-1,1], so
every emitted sample has magnitude at most 1, from any accumulator state. -/
theorem brown_noise_bounded (acc : ℚ) (dss : List (List ℚ)) :
    ∀ out ∈ brownRun acc dss, |out| ≤ 1 := by
  induction dss generalizing acc with
  | nil => simp [brownRun]
  | cons ds rest ih =>
      intro out hout
      rw [brownRun] at hout
      rcases hstep : brownStep acc ds with _ | v
      · rw [hstep] at hout
        simp at hout
      · rw [hstep] at hout
        rcases List.mem_cons.mp hout with h | h
        · exact h ▸ brownStep_bounded acc ds v hstep
        · exact ih v out h

/-- C7 witness: a two-call run from the zeroed accumulator; the second call
rejects the draw 17 (|1/32 + 17/16| > 1) and accepts -1. -/
theorem brown_noise_bounded_witness : |(-1/32 : ℚ)| ≤ 1 :=
  brown_noise_bounded 0 [[1/2], [17, -1]] (-1/32) (by
    have h1 : brownStep (0 : ℚ) [1/2] = some (1/32) := by
      norm_num [brownStep, abs_le]
    have h2 : brownStep (1/32 : ℚ) [17, -1] = some (-1/32) := by
      norm_num [brownStep, abs_le]
    simp only [brownRun, h1, h2]
    simp)

/-- C9: the frequency/sweep validation of `getopts` rejects, at configuration
time, every request that sweeps a noise or pluck type (`type >= synth_noise`)
and every exponential or exponential-per-cycle sweep in which either endpoint
frequency is zero (`sweep >= Exp && freq * freq2 == 0`); `flow` contains no
configuration check, so rejection never happens mid-stream. -/
theorem getopts_rejects_bad_sweeps (t : SynthType) (s : SweepKind)
    (freq f2 : ℚ) (L : Bool)
    (h : synthNoiseCode ≤ typeCode t ∨ (expLawCode ≤ sweepCode s ∧ freq * f2 = 0)) :
    isRejected (getoptsFreqCheck t freq (some (s, f2)) L) = true := by
  unfold getoptsFreqCheck
  by_cases g1 : freq < (if t = SynthType.pluck then (55/2 : ℚ) else 0)
      ∨ (t = SynthType.pluck ∧ freq > 4220)
  · rw [if_pos g1]; rfl
  · rw [if_neg g1]
    simp only [getoptsSweepCheck]
    by_cases g2 : synthNoiseCode ≤ typeCode t
    · rw [if_pos g2]; rfl
    · rw [if_neg g2]
      have hz : expLawCode ≤ sweepCode s ∧ freq * f2 = 0 := h.resolve_left g2
      by_cases g3 : f2 < 0
      · rw [if_pos g3]; rfl
      · rw [if_neg g3]
        by_cases g4 : L = false
        · rw [if_pos g4]; rfl
        · rw [if_neg g4, if_pos hz]; rfl

/-- C9 witness: a sweep requested on a white-noise channel is rejected. -/
theorem getopts_rejects_bad_sweeps_witness :
    isRejected (getoptsFreqCheck .whitenoise 440 (some (.linear, 100)) true) = true :=
  getopts_rejects_bad_sweeps .whitenoise .linear 440 100 true (Or.inl (by decide))

/-! ## Theorems: ℝ-valued claims -/

/-- C8: for a synthesized sample `s ∈ [-1,1]` and a DC offset `o ∈ [-1,1]`,
the offset step `s * (1 - |o|) + o` stays in [-1,1]. -/
theorem offset_clip_guard (s o : ℝ) (hs1 : -1 ≤ s) (hs2 : s ≤ 1)
    (ho1 : -1 ≤ o) (ho2 : o ≤ 1) :
    -1 ≤ offsetClip s o ∧ offsetClip s o ≤ 1 := by
  unfold offsetClip
  rcases abs_cases o with ⟨heq, hsign⟩ | ⟨heq, hsign⟩ <;> rw [heq]
  · constructor
    · nlinarith [mul_nonneg (by linarith : (0:ℝ) ≤ s + 1) (by linarith : (0:ℝ) ≤ 1 - o)]
    · nlinarith [mul_nonneg (by linarith : (0:ℝ) ≤ 1 - s) (by linarith : (0:ℝ) ≤ 1 - o)]
  · constructor
    · nlinarith [mul_nonneg (by linarith : (0:ℝ) ≤ s + 1) (by linarith : (0:ℝ) ≤ 1 + o)]
    · nlinarith [mul_nonneg (by linarith : (0:ℝ) ≤ 1 - s) (by linarith : (0:ℝ) ≤ 1 + o)]

/-- C8 witness: `s = 1/2`, `o = -1/2` gives `s' = -1/4 ∈ [-1,1]`. -/
theorem offset_clip_guard_witness :
    -1 ≤ offsetClip (1/2) (-1/2) ∧ offsetClip (1/2) (-1/2) ≤ 1 :=
  offset_clip_guard (1/2) (-1/2) (by norm_num) (by norm_num) (by norm_num) (by norm_num)

/-- C1 counterexample: at `f = 0`, `f2 = 3`, `N = 4` the code computes
`sqrt(3)/4/sqrt(3) = 1/4`, while the claimed formula
`sign(f2-f)*sqrt(|f2-f|/N/3)` gives `sqrt(1/4) = 1/2`; the two disagree
(they coincide only at `N = 1`). -/
theorem square_sweep_mult_cex :
    squareSweepMult 0 3 4 = 1/4 ∧ squareSweepMultSpec 0 3 4 = 1/2
    ∧ squareSweepMult 0 3 4 ≠ squareSweepMultSpec 0 3 4 := by
  have e1 : squareSweepMult 0 3 4 = 1/4 := by
    unfold squareSweepMult squareSweepMultBase
    rw [if_neg (by norm_num : ¬ (3:ℝ) < 0), if_neg (by norm_num : (4:ℕ) ≠ 0)]
    rw [show |(3:ℝ) - 0| = 3 by norm_num, show ((4:ℕ):ℝ) = 4 by norm_num]
    rw [div_div, div_eq_iff (by positivity : (4:ℝ) * Real.sqrt 3 ≠ 0)]
    ring
  have e2 : squareSweepMultSpec 0 3 4 = 1/2 := by
    unfold squareSweepMultSpec
    rw [if_neg (by norm_num : (4:ℕ) ≠ 0)]
    rw [show |(3:ℝ) - 0| / ((4:ℕ):ℝ) / 3 = 1/4 by push_cast; norm_num]
    rw [show (1/4 : ℝ) = (1/2)^2 by norm_num, Real.sqrt_sq (by norm_num : (0:ℝ) ≤ 1/2)]
    rw [Real.sign_of_pos (by norm_num : (0:ℝ) < 3 - 0)]
    norm_num
  exact ⟨e1, e2, by rw [e1, e2]; norm_num⟩

/-- C1 amended: for `N > 0` the square-law multiplier equals
`sign(f2-f) * sqrt(|f2-f|) / N / sqrt(3)` (the `N` outside the square root),
it is 0 when `N = 0`, and the raw per-sample phase is
`(f + sign(m) * (n*m)^2) * t`. -/
theorem square_sweep_mult_amended (f f2 m t : ℝ) (n N : ℕ) (hN : N ≠ 0) :
    squareSweepMult f f2 N = Real.sign (f2 - f) * (Real.sqrt |f2 - f| / N / Real.sqrt 3)
    ∧ squareSweepMult f f2 0 = 0
    ∧ squarePhaseRaw f m n t = (f + csign m * ((n : ℝ) * m) ^ 2) * t := by
  refine ⟨?_, ?_, ?_⟩
  · unfold squareSweepMult squareSweepMultBase
    rw [if_neg hN]
    rcases lt_trichotomy f2 f with hc | hc | hc
    · rw [if_pos hc, Real.sign_of_neg (by linarith : f2 - f < 0)]
      ring
    · rw [hc, if_neg (lt_irrefl f), sub_self, abs_zero, Real.sqrt_zero, Real.sign_zero]
      simp
    · rw [if_neg (not_lt.mpr hc.le), Real.sign_of_pos (by linarith : 0 < f2 - f)]
      ring
  · unfold squareSweepMult squareSweepMultBase
    rw [if_pos rfl]
    split_ifs <;> simp
  · unfold squarePhaseRaw sqr
    ring

/-- C1 amended, witness at `f = 0`, `f2 = 3`, `N = 4`, `m = 1/2`, `n = 2`,
`t = 5`. -/
theorem square_sweep_mult_amended_witness :
    (4 : ℕ) ≠ 0 ∧
    (squareSweepMult 0 3 4 = Real.sign (3 - 0) * (Real.sqrt |(3:ℝ) - 0| / ((4:ℕ):ℝ) / Real.sqrt 3)
     ∧ squareSweepMult 0 3 0 = 0
     ∧ squarePhaseRaw 0 (1/2) 2 5 = (0 + csign (1/2) * (((2:ℕ):ℝ) * (1/2)) ^ 2) * 5) :=
  ⟨by norm_num, square_sweep_mult_amended 0 3 (1/2) 5 2 4 (by norm_num)⟩

/-- C5 counterexample: constant "sweep" `f = f2 = 2` over `N = 10` samples
(`mult = 0`, so `f(t) = 2`) at rate 1: the cycle start is still 0 after the
frame at `t = 0`, and at the frame at `t = 1` the boundary branch fires once
(`f * elapsed = 2 ≥ 1`), advances the cycle start by `1/f = 1/2`, and the
recomputed phase is `2 * (1 - 1/2) = 1`, not strictly below 1. -/
theorem exp_cycle_phase_cex :
    expCycleMult 2 2 10 = 0
    ∧ expCycleFreq 2 2 10 1 = 2
    ∧ (expCycleStep (expCycleFreq 2 2 10 0) 0 0).2 = 0
    ∧ (expCycleStep (expCycleFreq 2 2 10 1) 1 0).1 = 1
    ∧ ¬ (expCycleStep (expCycleFreq 2 2 10 1) 1 0).1 < 1 := by
  have hm : expCycleMult 2 2 10 = 0 := by
    unfold expCycleMult
    rw [if_neg (by norm_num : (10:ℕ) ≠ 0), sub_self, zero_div]
  have hfr : ∀ k : ℕ, expCycleFreq 2 2 10 k = 2 := by
    intro k
    unfold expCycleFreq
    rw [hm, mul_zero, Real.exp_zero, mul_one]
  have hstep0 : (expCycleStep 2 0 0).2 = 0 := by
    unfold expCycleStep
    rw [if_neg (by norm_num : ¬ (1:ℝ) ≤ 2 * (0 - 0))]
  have hstep1 : (expCycleStep 2 1 0).1 = 1 := by
    unfold expCycleStep
    rw [if_pos (by norm_num : (1:ℝ) ≤ 2 * (1 - 0))]
    show (2:ℝ) * (1 - (0 + 1 / 2)) = 1
    norm_num
  refine ⟨hm, hfr 1, ?_, ?_, ?_⟩
  · rw [hfr 0]; exact hstep0
  · rw [hfr 1]; exact hstep1
  · rw [hfr 1, hstep1]; norm_num

/-- C5 amended: a frame whose elapsed time since the cycle start reaches
`1/f(t)` advances the cycle-start timestamp by `1/f(t)` and the recomputed
phase equals the pre-reset phase minus exactly 1; the phase is therefore
strictly below 1 whenever the pre-reset phase `f(t)*(t - cycle_start)` is
below 2 (but can reach 1 or more otherwise, since the reset is a single
`if`, not a loop). -/
theorem exp_cycle_phase_amended (f t cs : ℝ) (hf : 0 < f)
    (hlt : f * (t - cs) < 2) :
    (expCycleStep f t cs).1 < 1
    ∧ (1 ≤ f * (t - cs) →
        (expCycleStep f t cs).2 = cs + 1 / f
        ∧ (expCycleStep f t cs).1 = f * (t - cs) - 1) := by
  have hfi : f * (1 / f) = 1 := by field_simp
  unfold expCycleStep
  split_ifs with hc
  · have hexp : f * (t - (cs + 1 / f)) = f * (t - cs) - f * (1 / f) := by ring
    constructor
    · show f * (t - (cs + 1 / f)) < 1
      rw [hexp, hfi]
      linarith
    · intro _
      refine ⟨rfl, ?_⟩
      show f * (t - (cs + 1 / f)) = f * (t - cs) - 1
      rw [hexp, hfi]
  · constructor
    · exact not_le.mp hc
    · intro hcon
      exact absurd hcon hc

/-- C5 amended, witness: `f = 2`, `t = 1/4`, `cs = 0` (pre-reset phase
`1/2 < 2`). -/
theorem exp_cycle_phase_amended_witness : (expCycleStep 2 (1/4) 0).1 < 1 :=
  (exp_cycle_phase_amended 2 (1/4) 0 (by norm_num) (by norm_num)).1

/-- C3: evaluation of the code at the failing input.  A downward exponential
sweep (`freq = 2`, `freq2 = 1`, one second at rate 48000) has
`mult = ln(1/2) < 0`, so the setup step `freq /= mult` makes `freq`
negative; at the very first sample (`t = 0`) the raw phase is
`freq ≈ -2.885`, and C's `fmod` keeps the dividend's sign, so the phase
consumed by the waveform switch is `≈ -0.885 < 0` — not in [0,1) as the
claim (and the comment at synth.c:545) require. -/
theorem exp_sweep_phase_negative :
    finalPhase (expPhaseRaw 2 1 48000 48000 0) 0 < 0 := by
  have hl1 : (0.6931471803 : ℝ) < Real.log 2 := Real.log_two_gt_d9
  have hl2 : Real.log 2 < 0.6931471808 := Real.log_two_lt_d9
  have hlpos : (0:ℝ) < Real.log 2 := by linarith
  have hm : expSweepMult 2 1 48000 48000 = -Real.log 2 := by
    unfold expSweepMult
    rw [if_neg (by norm_num : (48000:ℕ) ≠ 0)]
    rw [show ((48000:ℕ):ℝ) = 48000 by norm_num]
    rw [div_mul_cancel₀ _ (by norm_num : (48000:ℝ) ≠ 0)]
    rw [show (1:ℝ)/2 = 2⁻¹ by norm_num, Real.log_inv]
  have hraw : expPhaseRaw 2 1 48000 48000 0 = -(2 / Real.log 2) := by
    unfold expPhaseRaw expStartFreq
    rw [hm, mul_zero, Real.exp_zero, mul_one, div_neg]
  have hb1 : 2 < 2 / Real.log 2 := by
    rw [lt_div_iff₀ hlpos]
    nlinarith
  have hb2 : 2 / Real.log 2 < 3 := by
    rw [div_lt_iff₀ hlpos]
    nlinarith
  unfold finalPhase cfmod1
  rw [add_zero, hraw, if_pos (by linarith : -(2 / Real.log 2) < 0)]
  have hceil : ⌈-(2 / Real.log 2)⌉ = -2 := by
    rw [Int.ceil_eq_iff]
    constructor
    · push_cast
      linarith
    · push_cast
      linarith
  rw [hceil]
  push_cast
  linarith

/-- Auxiliary: a left fold of `min` is bounded by its seed. -/
theorem foldl_min_le_init (b : List ℝ) : ∀ init : ℝ, b.foldl min init ≤ init := by
  induction b with
  | nil => intro init; simp
  | cons a l ih => intro init; exact le_trans (ih (min init a)) (min_le_left _ _)

/-- Auxiliary: a left fold of `min` is bounded by every list element. -/
theorem foldl_min_le_mem (b : List ℝ) : ∀ init x, x ∈ b → b.foldl min init ≤ x := by
  induction b with
  | nil =>
      intro _ x hx
      simp at hx
  | cons a l ih =>
      intro init x hx
      rcases List.mem_cons.mp hx with h | h
      · rw [h]
        exact le_trans (foldl_min_le_init l (min init a)) (min_le_right _ _)
      · exact ih (min init a) x h

/-- Auxiliary: a left fold of `min` is the seed or a list element. -/
theorem foldl_min_attained (b : List ℝ) :
    ∀ init : ℝ, b.foldl min init = init ∨ b.foldl min init ∈ b := by
  induction b with
  | nil => intro init; exact Or.inl rfl
  | cons a l ih =>
      intro init
      rcases ih (min init a) with h | h
      · rcases min_cases init a with ⟨he, _⟩ | ⟨he, _⟩
        · exact Or.inl (by rw [List.foldl_cons, h, he])
        · exact Or.inr (by rw [List.foldl_cons, h, he]; exact List.mem_cons_self a l)
      · exact Or.inr (List.mem_cons_of_mem a h)

/-- Auxiliary: a left fold of `max` dominates its seed. -/
theorem foldl_max_ge_init (b : List ℝ) : ∀ init : ℝ, init ≤ b.foldl max init := by
  induction b with
  | nil => intro init; simp
  | cons a l ih => intro init; exact le_trans (le_max_left _ _) (ih (max init a))

/-- Auxiliary: a left fold of `max` dominates every list element. -/
theorem foldl_max_ge_mem (b : List ℝ) : ∀ init x, x ∈ b → x ≤ b.foldl max init := by
  induction b with
  | nil =>
      intro _ x hx
      simp at hx
  | cons a l ih =>
      intro init x hx
      rcases List.mem_cons.mp hx with h | h
      · rw [h]
        exact le_trans (le_max_right _ _) (foldl_max_ge_init l (max init a))
      · exact ih (max init a) x h

/-- Auxiliary: a left fold of `max` is the seed or a list element. -/
theorem foldl_max_attained (b : List ℝ) :
    ∀ init : ℝ, b.foldl max init = init ∨ b.foldl max init ∈ b := by
  induction b with
  | nil => intro init; exact Or.inl rfl
  | cons a l ih =>
      intro init
      rcases ih (max init a) with h | h
      · rcases max_cases init a with ⟨he, _⟩ | ⟨he, _⟩
        · exact Or.inl (by rw [List.foldl_cons, h, he])
        · exact Or.inr (by rw [List.foldl_cons, h, he]; exact List.mem_cons_self a l)
      · exact Or.inr (List.mem_cons_of_mem a h)

/-- C6 counterexample: a pre-normalization buffer lying strictly above 0,
here `[1/2, 1]`, has observed extremes `min = 0` (the seed, attained by no
element) and `max = 1`, so normalization maps it to `[0, 1]`: no element
equals -1, hence the normalized minimum is 0, not -1. -/
theorem pluck_normalize_cex :
    normalizeBuffer [(1:ℝ)/2, 1] = [0, 1]
    ∧ (-1 : ℝ) ∉ normalizeBuffer [(1:ℝ)/2, 1] := by
  have hmin : bufferMin [(1:ℝ)/2, 1] = 0 := by
    norm_num [bufferMin, List.foldl_cons, List.foldl_nil, min_def]
  have hmax : bufferMax [(1:ℝ)/2, 1] = 1 := by
    norm_num [bufferMax, List.foldl_cons, List.foldl_nil, max_def]
  constructor
  · unfold normalizeBuffer
    rw [hmin, hmax]
    norm_num
  · unfold normalizeBuffer
    rw [hmin, hmax]
    norm_num

/-- C6 amended: provided the graduated excitation buffer contains a value
at most 0 and a value at least 0 (so the 0-seeded observed extremes are
attained by buffer elements) and the extremes differ, the normalization
step produces a buffer whose minimum is exactly -1 and whose maximum is
exactly 1: both values occur and every element lies in [-1,1]. -/
theorem pluck_normalize_amended (b : List ℝ) (x y : ℝ)
    (hx : x ∈ b) (hx0 : x ≤ 0) (hy : y ∈ b) (hy0 : 0 ≤ y)
    (hlt : bufferMin b < bufferMax b) :
    (-1) ∈ normalizeBuffer b ∧ 1 ∈ normalizeBuffer b
    ∧ ∀ v ∈ normalizeBuffer b, -1 ≤ v ∧ v ≤ 1 := by
  have hd : 0 < bufferMax b - bufferMin b := sub_pos.mpr hlt
  have hmin_mem : bufferMin b ∈ b := by
    rcases foldl_min_attained b 0 with h | h
    · have h1 : bufferMin b ≤ x := foldl_min_le_mem b 0 x hx
      have h2 : x = bufferMin b := le_antisymm (by rw [bufferMin, h]; exact hx0) h1
      exact h2 ▸ hx
    · exact h
  have hmax_mem : bufferMax b ∈ b := by
    rcases foldl_max_attained b 0 with h | h
    · have h1 : y ≤ bufferMax b := foldl_max_ge_mem b 0 y hy
      have h2 : y = bufferMax b := le_antisymm h1 (by rw [bufferMax, h]; exact hy0)
      exact h2 ▸ hy
    · exact h
  unfold normalizeBuffer
  refine ⟨?_, ?_, ?_⟩
  · exact List.mem_map.mpr ⟨bufferMin b, hmin_mem, by rw [div_eq_iff hd.ne']; ring⟩
  · exact List.mem_map.mpr ⟨bufferMax b, hmax_mem, by rw [div_eq_iff hd.ne']; ring⟩
  · intro v hv
    rcases List.mem_map.mp hv with ⟨w, hw, rfl⟩
    have h1 : bufferMin b ≤ w := foldl_min_le_mem b 0 w hw
    have h2 : w ≤ bufferMax b := foldl_max_ge_mem b 0 w hw
    constructor
    · rw [le_div_iff₀ hd]
      linarith
    · rw [div_le_one hd]
      linarith

/-- C6 amended, witness: the buffer `[-1/2, 1/2]` straddles 0, and -1 occurs
in its normalization. -/
theorem pluck_normalize_amended_witness : (-1) ∈ normalizeBuffer [-(1:ℝ)/2, 1/2] :=
  (pluck_normalize_amended [-(1:ℝ)/2, 1/2] (-(1:ℝ)/2) (1/2)
    (by norm_num) (by norm_num) (by norm_num) (by norm_num)
    (by norm_num [bufferMin, bufferMax, List.foldl_cons, List.foldl_nil,
        min_def, max_def])).1

end SoxSynth
